import Mathlib

/- Verification of the core components of the Discord OCR-and-Translate bot:
   multi-script text detection scoring (src/utils/ocr.py), batch translation
   fallback (src/utils/translator.py), background estimation and text fitting
   (src/utils/image_edit.py), and per-user language preferences
   (src/utils/user_prefs.py).

   Modelling conventions: Python floats are modelled by exact rationals,
   numpy pixel arrays by index functions, and external collaborators
   (EasyOCR readers, the Google translation backend, font measurement,
   word wrapping and glyph rasterization) by explicit function parameters.
   Python `int(x)` truncation toward zero is `pyInt`, `//` is `Int.fdiv`. -/

namespace OCRBot

/-! Data model of src/utils/ocr.py. -/

/-- A detected text region, mirroring the `TextRegion` dataclass of
src/utils/ocr.py: four integer corner points, recognized text, and a
detector confidence (a Python float, modelled as a rational). -/
structure TextRegion where
  bbox : List (Int × Int)
  text : String
  confidence : Rat
deriving Repr, DecidableEq

/-- The fixed `_READER_CONFIGS` mapping of src/utils/ocr.py, in its
enumeration (insertion) order. -/
def READER_CONFIGS : List (String × List String) :=
  [("latin", ["en"]),
   ("chinese", ["ch_sim", "en"]),
   ("japanese", ["ja", "en"]),
   ("korean", ["ko", "en"]),
   ("cyrillic", ["ru", "uk", "be", "bg", "mn"]),
   ("arabic", ["ar", "fa", "ur"]),
   ("devanagari", ["hi", "mr", "ne"])]

/-- The script-family keys iterated by `detect_text`, in order. -/
def readerGroups : List String := READER_CONFIGS.map Prod.fst

/-- One family's attempt: its name together with `some regions` when the
reader ran (regions already filtered of blank text by `_run_reader`), or
`none` when the reader raised and the family is skipped. -/
abbrev Trial := String × Option (List TextRegion)

/-- The score `detect_text` would assign to a trial: `regionCount * averageConfidence`
for a successful non-empty trial, `0` for a failed or empty one (such trials never
update the best-so-far, whose score starts at `0`). -/
def selScore (t : Trial) : Rat :=
  match t.2 with
  | none => 0
  | some rs =>
    if rs.isEmpty then 0
    else (rs.length : Rat) * ((rs.map TextRegion.confidence).sum / (rs.length : Rat))

/-- The region list carried by a trial (empty for a failed reader). -/
def regionsOf (t : Trial) : List TextRegion :=
  match t.2 with
  | none => []
  | some rs => rs

/-- One iteration of the `for group in _READER_CONFIGS` loop of `detect_text`
(src/utils/ocr.py lines 81-105): skip failed readers and empty region lists,
compute `score = len(regions) * avg_conf`, and replace the best-so-far
accumulator `(best_regions, best_score, best_group)` only on `score > best_score`. -/
def detectStep (acc : List TextRegion × Rat × String) (t : Trial) :
    List TextRegion × Rat × String :=
  match t.2 with
  | none => acc
  | some rs =>
    if rs.isEmpty then acc
    else
      let score := (rs.length : Rat) * ((rs.map TextRegion.confidence).sum / (rs.length : Rat))
      if acc.2.1 < score then (rs, score, t.1) else acc

/-- The full loop of `detect_text`, starting from
`best_regions = []`, `best_score = 0.0`, `best_group = "unknown"`. -/
def detectFold (trials : List Trial) : List TextRegion × Rat × String :=
  trials.foldl detectStep ([], 0, "unknown")

/-- `detect_text` of src/utils/ocr.py, with the per-image reader results
abstracted into `outcomes` (`none` models a reader that raised). Returns
the winning regions and script-family label. -/
def detect_text (outcomes : String → Option (List TextRegion)) :
    List TextRegion × String :=
  let r := detectFold (readerGroups.map (fun g => (g, outcomes g)))
  (r.1, r.2.2)

/-- Outcome function in which every reader returns no region. -/
def outcomesAllEmpty : String → Option (List TextRegion) := fun _ => some []

/-- Outcome function in which only the latin reader finds one region. -/
def outcomesLatin : String → Option (List TextRegion) := fun g =>
  if g = "latin" then some [⟨[(0, 0), (1, 0), (1, 1), (0, 1)], "hi", 1⟩] else none

/-! Batch translator, src/utils/translator.py. -/

/-- Truthiness of `not text.strip()` in Python: the string is empty or
consists only of whitespace characters. -/
def isBlank (s : String) : Bool := s.data.all Char.isWhitespace

/-- `r if r else t`: a backend result that is `None` or the empty string is
replaced by the original text `t`. -/
def orText (r : Option String) (t : String) : String :=
  match r with
  | none => t
  | some s => if s = "" then t else s

/-- The deep-translator `GoogleTranslator` backend, abstracted: `batch` is
`translate_batch` on a whole list, `single` is `translate` on one string;
both take `(source_lang, target_lang)` first and may raise (`Except.error`)
or return possibly-null results. -/
structure Backend where
  batch : String → String → List String → Except Unit (List (Option String))
  single : String → String → String → Except Unit (Option String)

/-- `translate_text` of src/utils/translator.py lines 10-29: blank input is
returned unchanged without a backend call; a raising backend or a null/empty
result yields the original text. -/
def translate_text (b : Backend) (text target_lang source_lang : String) : String :=
  if isBlank text then text
  else
    match b.single source_lang target_lang text with
    | Except.error _ => text
    | Except.ok translated => orText translated text

/-- `translate_batch` of src/utils/translator.py lines 32-54: empty input
returns `[]` before any backend call; otherwise one whole-batch backend call,
whose per-element null/empty results fall back to the originals (via
`zip(results, texts)`), and whose failure degrades to per-element
`translate_text` calls. -/
def translate_batch (b : Backend) (texts : List String) (target_lang source_lang : String) :
    List String :=
  if texts.isEmpty then []
  else
    match b.batch source_lang target_lang texts with
    | Except.ok results => (results.zip texts).map (fun p => orText p.1 p.2)
    | Except.error _ => texts.map (fun t => translate_text b t target_lang source_lang)

/-- A backend whose batch and single calls always raise. -/
def failBackend : Backend :=
  ⟨fun _ _ _ => Except.error (), fun _ _ _ => Except.error ()⟩

/-- A backend that succeeds on every call, appending a marker. -/
def okBackend : Backend :=
  ⟨fun _ _ ts => Except.ok (ts.map (fun t => some (t ++ "!"))),
   fun _ _ t => Except.ok (some (t ++ "!"))⟩

/-- A backend whose single whole-batch call succeeds and returns a
non-empty translation for a whitespace-only element. -/
def blankBatchBackend : Backend :=
  ⟨fun _ _ ts => if ts = ["  ", "hello"] then Except.ok [some "X", some "hola"] else Except.error (),
   fun _ _ _ => Except.error ()⟩

/-- A backend whose batch call raises but whose single calls succeed. -/
def blankFallbackBackend : Backend :=
  ⟨fun _ _ _ => Except.error (), fun _ _ t => Except.ok (some ("T" ++ t))⟩

/-! Shared image model and helpers for src/utils/image_edit.py. -/

/-- An RGB pixel value. -/
abbrev RGB := Nat × Nat × Nat

/-- An in-memory RGB image: height and width (numpy `shape[:2]`) and a
pixel function indexed `px row column` like `img_array[y, x]`. -/
structure Img where
  h : Int
  w : Int
  px : Int → Int → RGB

/-- `min(l)` of a Python list of ints (0 for the empty list, which the
source never passes). -/
def pyMin (l : List Int) : Int := (l.min?).getD 0

/-- `max(l)` of a Python list of ints. -/
def pyMax (l : List Int) : Int := (l.max?).getD 0

/-- Python `range(a, b)` as a list of integers. -/
def pyRange (a b : Int) : List Int := (List.range (b - a).toNat).map (fun i => a + (i : Int))

/-- The closed integer interval `[a, b]` as a list. -/
def intervalClosed (a b : Int) : List Int := (List.range (b + 1 - a).toNat).map (fun i => a + (i : Int))

/-- Insert a value into a sorted list of naturals. -/
def insertSorted (a : Nat) : List Nat → List Nat
  | [] => [a]
  | b :: l => if a ≤ b then a :: b :: l else b :: insertSorted a l

/-- Sort a list of naturals ascending (insertion sort). -/
def sortNat (l : List Nat) : List Nat := l.foldr insertSorted []

/-- `int(np.median(l))` for a list of naturals: the middle element of the
sorted list for odd length, the truncated mean of the two middle elements
for even length. -/
def medianNat (l : List Nat) : Nat :=
  let s := sortNat l
  let n := s.length
  if n % 2 = 1 then s.getD (n / 2) 0
  else (s.getD (n / 2 - 1) 0 + s.getD (n / 2) 0) / 2

/-- The four border-pixel collection loops of `_sample_background_color`
(src/utils/image_edit.py lines 64-85), applied to precomputed clamped
expanded-rectangle bounds `xm ≤ x ≤ xM`, `ym ≤ y ≤ yM`: top edge, bottom
edge, left edge, right edge, in source order, each guarded as in the source. -/
def codeBands (px : Int → Int → RGB) (h w xm xM ym yM bp : Int) : List RGB :=
  let top :=
    if 0 ≤ ym then
      (pyRange (max 0 (ym - bp)) (min h (ym + 1))).flatMap
        (fun y => (pyRange xm (xM + 1)).map (fun x => px y x))
    else []
  let bottom :=
    if yM < h then
      (pyRange (max 0 yM) (min h (yM + bp + 1))).flatMap
        (fun y => (pyRange xm (xM + 1)).map (fun x => px y x))
    else []
  let left :=
    if 0 ≤ xm then
      (pyRange (max 0 (xm - bp)) (min w (xm + 1))).flatMap
        (fun x => (pyRange ym (yM + 1)).map (fun y => px y x))
    else []
  let right :=
    if xM < w then
      (pyRange (max 0 xM) (min w (xM + bp + 1))).flatMap
        (fun x => (pyRange ym (yM + 1)).map (fun y => px y x))
    else []
  top ++ bottom ++ left ++ right

/-- The same four sample bands written declaratively as products of closed
integer intervals, following the amended wording: around the clamped expanded
rectangle, a top band of rows from `borderWidth` above its top row through
that top row, a bottom band from its bottom row through `borderWidth` below,
and left/right bands similarly around its left/right columns spanning its
full vertical extent, every coordinate clamped to the image. -/
def amendedBands (px : Int → Int → RGB) (h w xm xM ym yM bp : Int) : List RGB :=
  let top :=
    (intervalClosed (max 0 (ym - bp)) (min (h - 1) ym)).flatMap
      (fun y => (intervalClosed xm xM).map (fun x => px y x))
  let bottom :=
    (intervalClosed (max 0 yM) (min (h - 1) (yM + bp))).flatMap
      (fun y => (intervalClosed xm xM).map (fun x => px y x))
  let left :=
    (intervalClosed (max 0 (xm - bp)) (min (w - 1) xm)).flatMap
      (fun x => (intervalClosed ym yM).map (fun y => px y x))
  let right :=
    (intervalClosed (max 0 xM) (min (w - 1) (xM + bp))).flatMap
      (fun x => (intervalClosed ym yM).map (fun y => px y x))
  top ++ bottom ++ left ++ right

/-- The clamped expanded-rectangle bounds computed by
`_sample_background_color` (src/utils/image_edit.py lines 56-62):
`(x_min, x_max, y_min, y_max)`. -/
def expandedBounds (img : Img) (bbox : List (Int × Int)) (bp : Int) : Int × Int × Int × Int :=
  let xs := bbox.map Prod.fst
  let ys := bbox.map Prod.snd
  (max 0 (pyMin xs - bp), min (img.w - 1) (pyMax xs + bp),
   max 0 (pyMin ys - bp), min (img.h - 1) (pyMax ys + bp))

/-- The multiset of border pixels collected by `_sample_background_color`. -/
def bandPixels (img : Img) (bbox : List (Int × Int)) (bp : Int) : List RGB :=
  let b := expandedBounds img bbox bp
  codeBands img.px img.h img.w b.1 b.2.1 b.2.2.1 b.2.2.2 bp

/-- The same multiset via the declarative band description. -/
def amendedBandPixels (img : Img) (bbox : List (Int × Int)) (bp : Int) : List RGB :=
  let b := expandedBounds img bbox bp
  amendedBands img.px img.h img.w b.1 b.2.1 b.2.2.1 b.2.2.2 bp

/-- `_sample_background_color` of src/utils/image_edit.py lines 46-92:
per-channel median of the collected border pixels, white when no pixel
was collected. -/
def sample_background_color (img : Img) (bbox : List (Int × Int)) (bp : Int) : RGB :=
  let ps := bandPixels img bbox bp
  if ps.isEmpty then (255, 255, 255)
  else (medianNat (ps.map (fun c => c.1)),
        medianNat (ps.map (fun c => c.2.1)),
        medianNat (ps.map (fun c => c.2.2)))

/-- The amended background estimator: identical except that the sample
bands are the declaratively described ones. -/
def amended_sample_background_color (img : Img) (bbox : List (Int × Int)) (bp : Int) : RGB :=
  let ps := amendedBandPixels img bbox bp
  if ps.isEmpty then (255, 255, 255)
  else (medianNat (ps.map (fun c => c.1)),
        medianNat (ps.map (fun c => c.2.1)),
        medianNat (ps.map (fun c => c.2.2)))

/-- Background estimator following the claim's words (for comparison with
the source behaviour): sample the four border bands just outside the
axis-aligned rectangle enclosing the polygon, each `borderWidth` pixels
thick, bounds-clamped, and take the per-channel median (white on empty).
The top and bottom strips span the expanded horizontal extent; the left and
right strips span the original vertical extent. -/
def spec_sample_background_color (img : Img) (bbox : List (Int × Int)) (bp : Int) : RGB :=
  let xs := bbox.map Prod.fst
  let ys := bbox.map Prod.snd
  let ox0 := pyMin xs
  let ox1 := pyMax xs
  let oy0 := pyMin ys
  let oy1 := pyMax ys
  let cols := intervalClosed (max 0 (ox0 - bp)) (min (img.w - 1) (ox1 + bp))
  let top :=
    (intervalClosed (max 0 (oy0 - bp)) (min (img.h - 1) (oy0 - 1))).flatMap
      (fun y => cols.map (fun x => img.px y x))
  let bottom :=
    (intervalClosed (max 0 (oy1 + 1)) (min (img.h - 1) (oy1 + bp))).flatMap
      (fun y => cols.map (fun x => img.px y x))
  let left :=
    (intervalClosed (max 0 (ox0 - bp)) (min (img.w - 1) (ox0 - 1))).flatMap
      (fun x => (intervalClosed (max 0 oy0) (min (img.h - 1) oy1)).map (fun y => img.px y x))
  let right :=
    (intervalClosed (max 0 (ox1 + 1)) (min (img.w - 1) (ox1 + bp))).flatMap
      (fun x => (intervalClosed (max 0 oy0) (min (img.h - 1) oy1)).map (fun y => img.px y x))
  let ps := top ++ bottom ++ left ++ right
  if ps.isEmpty then (255, 255, 255)
  else (medianNat (ps.map (fun c => c.1)),
        medianNat (ps.map (fun c => c.2.1)),
        medianNat (ps.map (fun c => c.2.2)))

/-- A 30 by 30 test image: the square `8 ≤ x, y ≤ 21` is grey (100, 100, 100)
and everything else is black. -/
def imgC6 : Img :=
  ⟨30, 30, fun y x => if 8 ≤ x ∧ x ≤ 21 ∧ 8 ≤ y ∧ y ≤ 21 then (100, 100, 100) else (0, 0, 0)⟩

/-- A square text polygon sitting in the middle of `imgC6`. -/
def bboxC6 : List (Int × Int) := [(12, 12), (17, 12), (17, 17), (12, 17)]

/-! Text fitter, src/utils/image_edit.py lines 101-163. -/

/-- `Int.fdiv` of numerator and denominator: the floor of a rational. -/
def ratFloor (q : Rat) : Int := Int.fdiv q.num q.den

/-- Python `int(x)`: truncation toward zero. -/
def pyInt (q : Rat) : Int := if q < 0 then -(ratFloor (-q)) else ratFloor q

/-- The fixed `padding = 2` of `_fit_text_in_bbox`. -/
def padding : Int := 2

/-- The starting font size `max(8, int(box_h * 0.85))`. -/
def fontStart (bh : Int) : Int := max 8 (pyInt ((bh : Rat) * 85 / 100))

/-- The floor font size `min_font_size = max(6, int(box_h * 0.2))`. -/
def fontFloor (bh : Int) : Int := max 6 (pyInt ((bh : Rat) * 20 / 100))

/-- `max(1, int((box_w - 2 * padding) / (font_size * 0.6)))`. -/
def charsPerLine (bw fs : Int) : Int :=
  max 1 (pyInt (((bw : Rat) - 2 * (padding : Rat)) / ((fs : Rat) * 6 / 10)))

/-- A text draw command: anchor position, chosen font size, and the wrapped
text handed to the drawing call. -/
structure DrawCmd where
  x : Int
  y : Int
  size : Int
  wrapped : String
deriving Repr, DecidableEq

/-- The acceptance predicate of the font-size search: the measured wrapped
block fits inside the box minus padding on both axes. `measure` abstracts
`draw.multiline_textbbox` (returning width and height) and `wrap` abstracts
`textwrap.fill`. -/
abbrev fitPred (measure : Int → String → Int × Int) (wrap : String → Int → String)
    (text : String) (bw bh fs : Int) : Prop :=
  (measure fs (wrap text (charsPerLine bw fs))).1 ≤ bw - 2 * padding ∧
  (measure fs (wrap text (charsPerLine bw fs))).2 ≤ bh - 2 * padding

/-- The draw command issued for font size `fs`: wrap, measure, and center
the block in the box (`//` is Python floor division). -/
def drawAt (measure : Int → String → Int × Int) (wrap : String → Int → String)
    (text : String) (bx by0 bw bh fs : Int) : DrawCmd :=
  let wr := wrap text (charsPerLine bw fs)
  let m := measure fs wr
  ⟨bx + Int.fdiv (bw - m.1) 2, by0 + Int.fdiv (bh - m.2) 2, fs, wr⟩

/-- The `while font_size >= min_font_size` search loop, fuelled: returns the
draw command of the first (largest) size that fits, or `none` when the range
is exhausted. -/
def fitSearch (measure : Int → String → Int × Int) (wrap : String → Int → String)
    (text : String) (bx by0 bw bh minS : Int) : Int → Nat → Option DrawCmd
  | _, 0 => none
  | fs, Nat.succ fuel =>
    if fs < minS then none
    else
      if fitPred measure wrap text bw bh fs then
        some (drawAt measure wrap text bx by0 bw bh fs)
      else fitSearch measure wrap text bx by0 bw bh minS (fs - 1) fuel

/-- `box_x = min(x_coords)`. -/
def boxX (bbox : List (Int × Int)) : Int := pyMin (bbox.map Prod.fst)

/-- `box_y = min(y_coords)`. -/
def boxY (bbox : List (Int × Int)) : Int := pyMin (bbox.map Prod.snd)

/-- `box_w = max(x_coords) - box_x`. -/
def boxW (bbox : List (Int × Int)) : Int := pyMax (bbox.map Prod.fst) - boxX bbox

/-- `box_h = max(y_coords) - box_y`. -/
def boxH (bbox : List (Int × Int)) : Int := pyMax (bbox.map Prod.snd) - boxY bbox

/-- `_fit_text_in_bbox` of src/utils/image_edit.py lines 101-163, returning
the draw command it issues (`none` exactly when it returns without drawing
because a box dimension is degenerate). The text color argument of the
source is applied later, at the drawing call, since it does not affect
geometry. -/
def fit_text_in_bbox (measure : Int → String → Int × Int) (wrap : String → Int → String)
    (text : String) (bbox : List (Int × Int)) : Option DrawCmd :=
  let bx := boxX bbox
  let by0 := boxY bbox
  let bw := boxW bbox
  let bh := boxH bbox
  if bw ≤ 0 ∨ bh ≤ 0 then none
  else
    let fs0 := fontStart bh
    let minS := fontFloor bh
    match fitSearch measure wrap text bx by0 bw bh minS fs0 (fs0 - minS + 1).toNat with
    | some cmd => some cmd
    | none => some (drawAt measure wrap text bx by0 bw bh minS)

/-- A measurement function under which every candidate block is 1 by 1. -/
def measureTiny : Int → String → Int × Int := fun _ _ => (1, 1)

/-- A measurement function under which every candidate block is 100 by 100. -/
def measureHuge : Int → String → Int × Int := fun _ _ => (100, 100)

/-- A wrap function that returns the text unchanged. -/
def wrapId : String → Int → String := fun s _ => s

/-- A 20-wide, 14-high box at the origin. -/
def bboxC7 : List (Int × Int) := [(0, 0), (20, 0), (20, 14), (0, 14)]

/-! Renderer, src/utils/image_edit.py lines 95-98 and 166-205. -/

/-- `_get_text_color`: black ink when the background luminance
`0.299 R + 0.587 G + 0.114 B` exceeds 128, else white ink. -/
def get_text_color (bg : RGB) : RGB :=
  if (128 : Rat) < ((bg.1 : Rat) * 299 + (bg.2.1 : Rat) * 587 + (bg.2.2 : Rat) * 114) / 1000
  then (0, 0, 0) else (255, 255, 255)

/-- The edge list of a polygon (consecutive vertex pairs, closing back to
the first vertex). -/
def polyEdges (poly : List (Int × Int)) : List ((Int × Int) × (Int × Int)) :=
  poly.zip (poly.drop 1 ++ poly.take 1)

/-- Whether point `p` lies on the closed segment from `e.1` to `e.2`. -/
def onSeg (e : (Int × Int) × (Int × Int)) (p : Int × Int) : Bool :=
  let a := e.1
  let b := e.2
  decide ((b.1 - a.1) * (p.2 - a.2) = (b.2 - a.2) * (p.1 - a.1)) &&
  decide (min a.1 b.1 ≤ p.1) && decide (p.1 ≤ max a.1 b.1) &&
  decide (min a.2 b.2 ≤ p.2) && decide (p.2 ≤ max a.2 b.2)

/-- Whether the horizontal ray from `p` toward positive x crosses edge `e`
(standard even-odd rule crossing test). -/
def raysCross (e : (Int × Int) × (Int × Int)) (p : Int × Int) : Bool :=
  let a := e.1
  let b := e.2
  (decide (a.2 ≤ p.2) != decide (b.2 ≤ p.2)) &&
  decide ((p.1 : Rat) < (a.1 : Rat) + ((p.2 - a.2 : Int) : Rat) * ((b.1 - a.1 : Int) : Rat) / ((b.2 - a.2 : Int) : Rat))

/-- Polygon rasterization model for `ImageDraw.polygon(fill=...)`: boundary
pixels plus even-odd interior. -/
def inPoly (poly : List (Int × Int)) (p : Int × Int) : Bool :=
  (polyEdges poly).any (fun e => onSeg e p) ||
  ((polyEdges poly).filter (fun e => raysCross e p)).length % 2 == 1

/-- `draw.polygon(polygon, fill=bg_color)`: paint every rasterized polygon
pixel with the fill color. -/
def fillPoly (img : Img) (poly : List (Int × Int)) (c : RGB) : Img :=
  { img with px := fun y x => if inPoly poly (x, y) then c else img.px y x }

/-- `draw.multiline_text((text_x, text_y), wrapped, fill, font)`: paint the
glyph pixels of the block, which lie inside the measured block rectangle;
`glyph` abstracts the font rasterizer's coverage within that rectangle. -/
def drawText (measure : Int → String → Int × Int) (glyph : Int → String → Int → Int → Bool)
    (img : Img) (cmd : DrawCmd) (color : RGB) : Img :=
  let m := measure cmd.size cmd.wrapped
  { img with px := fun y x =>
      if cmd.x ≤ x ∧ x < cmd.x + m.1 ∧ cmd.y ≤ y ∧ y < cmd.y + m.2 ∧
         glyph cmd.size cmd.wrapped (x - cmd.x) (y - cmd.y) then color
      else img.px y x }

/-- One iteration of the region loop of `render_translated_image`
(src/utils/image_edit.py lines 189-199): sample the background from the
current canvas, fill the polygon, pick the ink color, and render the
translated text. -/
def renderStep (measure : Int → String → Int × Int) (wrap : String → Int → String)
    (glyph : Int → String → Int → Int → Bool) (img : Img) (rt : TextRegion × String) : Img :=
  let bg := sample_background_color img rt.1.bbox 4
  let img1 := fillPoly img rt.1.bbox bg
  match fit_text_in_bbox measure wrap rt.2 rt.1.bbox with
  | none => img1
  | some cmd => drawText measure glyph img1 cmd (get_text_color bg)

/-- `render_translated_image` of src/utils/image_edit.py lines 166-205,
over the in-memory canvas (`zip(regions, translated_texts)` pairs regions
with their texts positionally). -/
def render_translated_image (measure : Int → String → Int × Int)
    (wrap : String → Int → String) (glyph : Int → String → Int → Int → Bool)
    (img : Img) (regions : List TextRegion) (texts : List String) : Img :=
  (regions.zip texts).foldl (renderStep measure wrap glyph) img

/-- The measured block rectangle of a draw command. -/
abbrev inTextRect (measure : Int → String → Int × Int) (cmd : DrawCmd) (x y : Int) : Prop :=
  cmd.x ≤ x ∧ x < cmd.x + (measure cmd.size cmd.wrapped).1 ∧
  cmd.y ≤ y ∧ y < cmd.y + (measure cmd.size cmd.wrapped).2

/-- A glyph rasterizer that covers its whole block rectangle. -/
def glyphFull : Int → String → Int → Int → Bool := fun _ _ _ _ => true

/-- A 12 by 12 all-black test image. -/
def imgC8 : Img := ⟨12, 12, fun _ _ => (0, 0, 0)⟩

/-- A single small square region in the top-left corner of `imgC8`. -/
def regionsC8 : List TextRegion := [⟨[(0, 0), (4, 0), (4, 4), (0, 4)], "x", 1⟩]

/-! User language preferences, src/utils/user_prefs.py. -/

/-- Python dict assignment `prefs[k] = v` on a string-keyed mapping
(replace in place, else append). -/
def dictInsert (k v : String) : List (String × String) → List (String × String)
  | [] => [(k, v)]
  | (k', v') :: rest => if k' = k then (k, v) :: rest else (k', v') :: dictInsert k v rest

/-- `_load_prefs`: the on-disk JSON mapping, or `{}` when the file is
missing or unreadable (`none`). -/
def load_prefs (disk : Option (List (String × String))) : List (String × String) :=
  disk.getD []

/-- `_save_prefs`: write the mapping to disk. -/
def save_prefs (prefs : List (String × String)) : Option (List (String × String)) :=
  some prefs

/-- `get_lang` of src/utils/user_prefs.py lines 34-41:
`prefs.get(str(user_id), config.DEFAULT_LANGUAGE)`. -/
def get_lang (defaultLang : String) (disk : Option (List (String × String)))
    (user_id : Int) : String :=
  ((load_prefs disk).lookup (toString user_id)).getD defaultLang

/-- `set_lang` of src/utils/user_prefs.py lines 44-55:
load, assign `prefs[str(user_id)] = lang`, save. -/
def set_lang (disk : Option (List (String × String))) (user_id : Int) (lang : String) :
    Option (List (String × String)) :=
  save_prefs (dictInsert (toString user_id) lang (load_prefs disk))

/-! Theorems. -/

set_option maxRecDepth 100000

theorem lookup_dictInsert (k v : String) (m : List (String × String)) :
    (dictInsert k v m).lookup k = some v := by
  induction m with
  | nil => simp [dictInsert, List.lookup]
  | cons p rest ih =>
    by_cases h : p.1 = k
    · simp [dictInsert, h, List.lookup]
    · have hne : (k == p.1) = false := by
        simp [beq_eq_false_iff_ne]
        exact fun hk => h hk.symm
      simp [dictInsert, h, List.lookup, hne, ih]

/-- Claim C10: after `set_lang(u, l)` succeeds, a subsequent `get_lang(u)`
returns exactly `l`: the preference round-trips through the on-disk mapping
keyed by the stringified user id, whatever the prior disk state (including a
missing or corrupt file) and whatever the configured default language. -/
theorem lang_pref_roundtrip (defaultLang : String) (disk : Option (List (String × String)))
    (u : Int) (l : String) :
    get_lang defaultLang (set_lang disk u l) u = l := by
  simp [get_lang, set_lang, save_prefs, load_prefs, lookup_dictInsert]

/-- Claim C3: when the whole-batch backend call fails, `translate_batch`
degrades to one `translate_text` call per element, and any element whose own
backend call fails (or returns a null/empty result) comes back as the
original input text, exactly preserved — no failure escapes. -/
theorem translate_batch_absorbs_failures (b : Backend) (texts : List String)
    (tl sl : String) (e : Unit) (hb : b.batch sl tl texts = Except.error e) :
    translate_batch b texts tl sl = texts.map (fun t => translate_text b t tl sl) ∧
    ∀ t : String,
      (b.single sl tl t = Except.error () ∨ b.single sl tl t = Except.ok none ∨
        b.single sl tl t = Except.ok (some "")) →
      translate_text b t tl sl = t := by
  constructor
  · by_cases h : texts.isEmpty
    · have : texts = [] := List.isEmpty_iff.mp h
      subst this
      simp [translate_batch]
    · simp [translate_batch, h, hb]
  · intro t ht
    by_cases hbl : isBlank t
    · simp [translate_text, hbl]
    · rcases ht with h1 | h1 | h1 <;> simp [translate_text, hbl, h1, orText]

/-- Witness for C3: a backend whose batch and single calls both raise leaves
every input string untouched. -/
theorem translate_batch_absorbs_failures_witness :
    failBackend.batch "auto" "es" ["hello", "  "] = Except.error () ∧
    translate_batch failBackend ["hello", "  "] "es" "auto" = ["hello", "  "] := by
  refine ⟨rfl, ?_⟩
  have h := translate_batch_absorbs_failures failBackend ["hello", "  "] "es" "auto" () rfl
  rw [h.1]
  have h1 := h.2 "hello" (Or.inl rfl)
  have h2 := h.2 "  " (Or.inl rfl)
  simp [h1, h2]

/-- Claim C4: `translate_batch` returns a list of the same length as its
input with positionally corresponding elements (given the backend's
documented same-length batch contract), and the empty input yields `[]`
whatever the backend does. -/
theorem translate_batch_length_and_order (b : Backend) (tl sl : String) :
    translate_batch b [] tl sl = [] ∧
    (∀ texts : List String,
      (∀ rs, b.batch sl tl texts = Except.ok rs → rs.length = texts.length) →
      (translate_batch b texts tl sl).length = texts.length) ∧
    (∀ texts rs i, b.batch sl tl texts = Except.ok rs → i < texts.length → i < rs.length →
      (translate_batch b texts tl sl).getD i "" = orText (rs.getD i none) (texts.getD i "")) := by
  refine ⟨rfl, ?_, ?_⟩
  · intro texts hlen
    by_cases h : texts.isEmpty
    · have : texts = [] := List.isEmpty_iff.mp h
      subst this
      rfl
    · cases hb : b.batch sl tl texts with
      | ok rs => simp [translate_batch, h, hb, hlen rs hb]
      | error err => simp [translate_batch, h, hb]
  · intro texts rs i hb hi hri
    have h : ¬ texts.isEmpty := by
      cases texts
      · simp at hi
      · simp
    simp only [translate_batch, h, if_false, Bool.false_eq_true, if_neg, hb]
    have hz : i < ((rs.zip texts).map (fun p => orText p.1 p.2)).length := by
      simp [List.length_zip]
      omega
    rw [List.getD_eq_getElem _ _ hz, List.getD_eq_getElem _ _ hri, List.getD_eq_getElem _ _ hi]
    simp [List.getElem_zip]

/-- Witness for C4: a succeeding backend of the documented shape preserves
length, and the empty batch returns empty. -/
theorem translate_batch_length_and_order_witness :
    (translate_batch okBackend ["a", "b"] "es" "auto").length = 2 ∧
    translate_batch okBackend [] "es" "auto" = [] := by
  have h := translate_batch_length_and_order okBackend "es" "auto"
  refine ⟨?_, h.1⟩
  have h2 := h.2.1 ["a", "b"] ?_
  · simpa using h2
  · intro rs hrs
    simp only [okBackend, List.map] at hrs
    cases hrs
    rfl

/-- Counterexample to C5: with a backend whose single whole-batch call
succeeds and translates the whitespace-only element `"  "` to `"X"`,
`translate_batch` returns `"X"` for it — the whitespace-only element is sent
to the backend inside the batch call and is not returned unchanged. -/
theorem translate_batch_blank_counterexample :
    isBlank "  " = true ∧
    translate_batch blankBatchBackend ["  ", "hello"] "es" "auto" = ["X", "hola"] ∧
    ("X" : String) ≠ "  " := by
  refine ⟨by decide, by decide, by decide⟩

/-- Amended C5: an empty-or-whitespace-only element is returned unchanged
without a per-element backend call only on the fallback path, i.e. when the
whole-batch backend call fails (where non-blank elements are individually
translated); on the successful batch path every element, blank or not, is
part of the single backend call, and an element is returned unchanged
exactly when the backend's result for it is null or empty. -/
theorem translate_batch_blank_amended (b : Backend) (texts : List String) (tl sl : String) :
    (∀ e, b.batch sl tl texts = Except.error e →
      ∀ i, isBlank (texts.getD i "") = true →
        (translate_batch b texts tl sl).getD i "" = texts.getD i "") ∧
    (∀ e, b.batch sl tl texts = Except.error e →
      ∀ i r, i < texts.length → isBlank (texts.getD i "") = false →
        b.single sl tl (texts.getD i "") = Except.ok (some r) → r ≠ "" →
        (translate_batch b texts tl sl).getD i "" = r) ∧
    (∀ rs i, b.batch sl tl texts = Except.ok rs → i < texts.length → i < rs.length →
      (rs.getD i none = none ∨ rs.getD i none = some "") →
      (translate_batch b texts tl sl).getD i "" = texts.getD i "") := by
  refine ⟨?_, ?_, ?_⟩
  · intro e hb i hbl
    by_cases h : texts.isEmpty
    · have : texts = [] := List.isEmpty_iff.mp h
      subst this
      rfl
    · simp only [translate_batch, h, if_false, Bool.false_eq_true, if_neg, hb]
      by_cases hi : i < texts.length
      · have hm : i < (texts.map (fun t => translate_text b t tl sl)).length := by
          simpa using hi
        rw [List.getD_eq_getElem _ _ hm, List.getElem_map,
          ← List.getD_eq_getElem texts "" hi]
        unfold translate_text
        rw [if_pos hbl]
      · have hle : texts.length ≤ i := by omega
        rw [List.getD_eq_default, List.getD_eq_default] <;> simpa
  · intro e hb i r hi hnb hs hr
    have h : ¬ texts.isEmpty := by
      cases texts
      · simp at hi
      · simp
    simp only [translate_batch, h, if_false, Bool.false_eq_true, if_neg, hb]
    have hm : i < (texts.map (fun t => translate_text b t tl sl)).length := by
      simpa using hi
    rw [List.getD_eq_getElem _ _ hm]
    rw [List.getD_eq_getElem _ _ hi] at hnb hs
    simp [translate_text, hnb, hs, orText, hr]
  · intro rs i hb hi hri hnul
    have h : ¬ texts.isEmpty := by
      cases texts
      · simp at hi
      · simp
    simp only [translate_batch, h, if_false, Bool.false_eq_true, if_neg, hb]
    have hz : i < ((rs.zip texts).map (fun p => orText p.1 p.2)).length := by
      simp [List.length_zip]
      omega
    rw [List.getD_eq_getElem _ _ hz, List.getD_eq_getElem _ _ hi]
    rw [List.getD_eq_getElem _ _ hri] at hnul
    rcases hnul with hn | hn <;> simp [List.getElem_zip, hn, orText]

/-- Witness for the amended C5: on a failing batch, the blank element comes
back unchanged and the non-blank one is individually translated. -/
theorem translate_batch_blank_amended_witness :
    (translate_batch blankFallbackBackend ["  ", "hi"] "es" "auto").getD 0 "" = "  " ∧
    (translate_batch blankFallbackBackend ["  ", "hi"] "es" "auto").getD 1 "" = "Thi" := by
  have h := translate_batch_blank_amended blankFallbackBackend ["  ", "hi"] "es" "auto"
  exact ⟨h.1 () rfl 0 (by decide),
         h.2.1 () rfl 1 "Thi" (by decide) (by decide) rfl (by decide)⟩

theorem detectStep_eq (acc : List TextRegion × Rat × String) (t : Trial) (h : 0 ≤ acc.2.1) :
    detectStep acc t = if acc.2.1 < selScore t then (regionsOf t, selScore t, t.1) else acc := by
  rcases t with ⟨g, o⟩
  cases o with
  | none =>
    have hnl : ¬ acc.2.1 < selScore (g, none) := by
      simp only [selScore]
      exact not_lt.mpr h
    simp [detectStep, hnl]
  | some rs =>
    by_cases hrs : rs.isEmpty
    · have hnl : ¬ acc.2.1 < selScore (g, some rs) := by
        simp only [selScore, hrs, if_true]
        exact not_lt.mpr h
      simp [detectStep, hrs, hnl]
    · simp [detectStep, selScore, hrs, regionsOf]

theorem selScore_pos {t : Trial} (h : 0 < selScore t) :
    ∃ rs, t.2 = some rs ∧ rs ≠ [] ∧ regionsOf t = rs := by
  rcases t with ⟨g, o⟩
  cases o with
  | none => simp [selScore] at h
  | some rs =>
    by_cases hrs : rs.isEmpty
    · simp [selScore, hrs] at h
    · exact ⟨rs, rfl, by simpa [List.isEmpty_iff] using hrs, rfl⟩

theorem selScore_eq_zero_of_conf_zero (t : Trial) (rs : List TextRegion)
    (h : t.2 = some rs) (hs : (rs.map TextRegion.confidence).sum = 0) :
    selScore t = 0 := by
  rcases t with ⟨g, o⟩
  simp only at h
  subst h
  simp [selScore, hs]

theorem detectFold_spec (trials : List Trial) :
    (detectFold trials = ([], 0, "unknown") ∧ ∀ t ∈ trials, selScore t ≤ 0) ∨
    (∃ pre t post, trials = pre ++ t :: post ∧
      detectFold trials = (regionsOf t, selScore t, t.1) ∧
      0 < selScore t ∧
      (∀ u ∈ pre, selScore u < selScore t) ∧
      (∀ u ∈ post, selScore u ≤ selScore t)) := by
  induction trials using List.reverseRecOn with
  | nil =>
    left
    exact ⟨rfl, by simp⟩
  | append_singleton l t ih =>
    have hfold : detectFold (l ++ [t]) = detectStep (detectFold l) t := by
      simp [detectFold, List.foldl_append]
    rcases ih with ⟨hf, hall⟩ | ⟨pre, u, post, hdec, hf, hpos, hpre, hpost⟩
    · by_cases hs : 0 < selScore t
      · right
        refine ⟨l, t, [], rfl, ?_, hs, ?_, by simp⟩
        · rw [hfold, hf, detectStep_eq _ _ (by norm_num)]
          simp [hs]
        · intro v hv
          exact lt_of_le_of_lt (hall v hv) hs
      · left
        refine ⟨?_, ?_⟩
        · rw [hfold, hf, detectStep_eq _ _ (by norm_num)]
          simp [hs]
        · intro v hv
          rcases List.mem_append.mp hv with h' | h'
          · exact hall v h'
          · have hv2 : v = t := by simpa using h'
            subst hv2
            exact le_of_not_lt hs
    · by_cases hs : selScore u < selScore t
      · right
        refine ⟨pre ++ u :: post, t, [], by rw [hdec], ?_, lt_trans hpos hs, ?_, by simp⟩
        · rw [hfold, hf, detectStep_eq _ _ (le_of_lt hpos)]
          simp [hs]
        · intro v hv
          rcases List.mem_append.mp hv with h' | h'
          · exact lt_trans (hpre v h') hs
          · rcases List.mem_cons.mp h' with h'' | h''
            · subst h''
              exact hs
            · exact lt_of_le_of_lt (hpost v h'') hs
      · right
        refine ⟨pre, u, post ++ [t], by rw [hdec]; simp, ?_, hpos, hpre, ?_⟩
        · rw [hfold, hf, detectStep_eq _ _ (le_of_lt hpos)]
          simp [hs]
        · intro v hv
          rcases List.mem_append.mp hv with h' | h'
          · exact hpost v h'
          · have hv2 : v = t := by simpa using h'
            subst hv2
            exact le_of_not_lt hs

/-- Claim C1: the detector's loop scores each successful family with at
least one region as `regionCount * averageConfidence` (`selScore`) and
tracks the best with a strict greater-than comparison, so the final result
is either the untouched initial accumulator (when no family has positive
score) or the regions, score, and name of a positively-scored family whose
score no other family exceeds and which every earlier family scores
strictly below — a later family with an equal score never replaces it. -/
theorem detect_score_formula_and_tiebreak (trials : List Trial) :
    (detectFold trials = ([], 0, "unknown") ∧ ∀ t ∈ trials, selScore t ≤ 0) ∨
    (∃ pre t post, trials = pre ++ t :: post ∧
      detectFold trials = (regionsOf t, selScore t, t.1) ∧
      0 < selScore t ∧
      (∀ u ∈ pre, selScore u < selScore t) ∧
      (∀ u ∈ post, selScore u ≤ selScore t)) :=
  detectFold_spec trials

/-- Claim C2: `detect_text` never selects a family that produced zero
regions — any non-"unknown" winner's outcome is a non-empty region list,
which is exactly the returned one — and when every family yields zero
regions (raised or returned an empty list) the result is `([], "unknown")`. -/
theorem detect_never_selects_empty_family (outcomes : String → Option (List TextRegion)) :
    ((detect_text outcomes).2 ≠ "unknown" →
      ∃ rs, outcomes (detect_text outcomes).2 = some rs ∧ rs ≠ [] ∧
        (detect_text outcomes).1 = rs) ∧
    ((∀ g ∈ readerGroups, outcomes g = none ∨ outcomes g = some []) →
      detect_text outcomes = ([], "unknown")) := by
  rcases detectFold_spec (readerGroups.map (fun g => (g, outcomes g))) with
    ⟨hf, hall⟩ | ⟨pre, t, post, hdec, hf, hpos, hpre, hpost⟩
  · constructor
    · intro hne
      exact absurd (by simp [detect_text, hf]) hne
    · intro _
      simp [detect_text, hf]
  · have ht : t ∈ readerGroups.map (fun g => (g, outcomes g)) := by
      rw [hdec]
      simp
    obtain ⟨g0, hg0, hgt⟩ := List.mem_map.mp ht
    have htg : t.1 = g0 := by rw [← hgt]
    have ht2 : t.2 = outcomes g0 := by rw [← hgt]
    obtain ⟨rs, hrs, hne0, hregOf⟩ := selScore_pos hpos
    constructor
    · intro _
      refine ⟨rs, ?_, hne0, ?_⟩
      · have hlab : (detect_text outcomes).2 = t.1 := by simp [detect_text, hf]
        rw [hlab, htg, ← ht2]
        exact hrs
      · simp [detect_text, hf, hregOf]
    · intro hz
      exfalso
      have hrs2 : outcomes g0 = some rs := by rw [← ht2]; exact hrs
      rcases hz g0 hg0 with h' | h'
      · rw [h'] at hrs2
        cases hrs2
      · rw [h'] at hrs2
        injection hrs2 with hrs3
        exact hne0 hrs3.symm

/-- Witness for C2: with every family returning an empty region list, the
detector yields the empty region sequence labelled "unknown". -/
theorem detect_never_selects_empty_family_witness :
    detect_text outcomesAllEmpty = ([], "unknown") :=
  (detect_never_selects_empty_family outcomesAllEmpty).2 (fun _ _ => Or.inr rfl)

/-- Claim C9: `detect_text` returns label "unknown" iff it returns an empty
region list; any non-"unknown" result carries a non-empty region list whose
family scores strictly positively; and a family all of whose regions have
confidence 0 is never the winner even though it produced regions. -/
theorem detect_unknown_iff_empty (outcomes : String → Option (List TextRegion)) :
    ((detect_text outcomes).2 = "unknown" ↔ (detect_text outcomes).1 = []) ∧
    ((detect_text outcomes).2 ≠ "unknown" →
      (detect_text outcomes).1 ≠ [] ∧
      0 < selScore ((detect_text outcomes).2, outcomes (detect_text outcomes).2)) ∧
    (∀ g rs, g ∈ readerGroups → outcomes g = some rs → rs ≠ [] →
      (∀ r ∈ rs, r.confidence = 0) → (detect_text outcomes).2 ≠ g) := by
  have hnu : ∀ x ∈ readerGroups, x ≠ "unknown" := by decide
  rcases detectFold_spec (readerGroups.map (fun g => (g, outcomes g))) with
    ⟨hf, hall⟩ | ⟨pre, t, post, hdec, hf, hpos, hpre, hpost⟩
  · refine ⟨by simp [detect_text, hf], ?_, ?_⟩
    · intro hne
      exact absurd (by simp [detect_text, hf]) hne
    · intro g rs hg hrs hne hconf
      have hu : (detect_text outcomes).2 = "unknown" := by simp [detect_text, hf]
      rw [hu]
      exact fun he => hnu g hg he.symm
  · have ht : t ∈ readerGroups.map (fun g => (g, outcomes g)) := by
      rw [hdec]
      simp
    obtain ⟨g0, hg0, hgt⟩ := List.mem_map.mp ht
    have htg : t.1 = g0 := by rw [← hgt]
    have ht2 : t.2 = outcomes g0 := by rw [← hgt]
    obtain ⟨rs0, hrs0, hne0, hregOf⟩ := selScore_pos hpos
    have hlab : (detect_text outcomes).2 = t.1 := by simp [detect_text, hf]
    have hreg : (detect_text outcomes).1 = regionsOf t := by simp [detect_text, hf]
    have hlab_ne : t.1 ≠ "unknown" := by
      rw [htg]
      exact hnu g0 hg0
    refine ⟨?_, ?_, ?_⟩
    · constructor
      · intro h'
        rw [hlab] at h'
        exact absurd h' hlab_ne
      · intro h'
        rw [hreg, hregOf] at h'
        exact absurd h' hne0
    · intro _
      constructor
      · rw [hreg, hregOf]
        exact hne0
      · rw [hlab, htg, ← ht2, ← htg]
        have hpair : ((t.1 : String), t.2) = t := rfl
        rw [hpair]
        exact hpos
    · intro g rs hg hrs hne hconf heq
      rw [hlab] at heq
      have ht2' : t.2 = some rs := by rw [ht2, ← htg, heq, hrs]
      have hsum : (rs.map TextRegion.confidence).sum = 0 := by
        apply List.sum_eq_zero
        intro x hx
        obtain ⟨r, hr, hxr⟩ := List.mem_map.mp hx
        rw [← hxr]
        exact hconf r hr
      have hzero := selScore_eq_zero_of_conf_zero t rs ht2' hsum
      rw [hzero] at hpos
      exact lt_irrefl 0 hpos

unseal Rat.add Rat.mul Rat.inv Rat.sub in
/-- Witness for C9: a run in which the latin family wins with one region of
confidence 1 has a non-empty result of strictly positive score. -/
theorem detect_unknown_iff_empty_witness :
    (detect_text outcomesLatin).1 ≠ [] ∧
    0 < selScore ((detect_text outcomesLatin).2, outcomesLatin (detect_text outcomesLatin).2) :=
  (detect_unknown_iff_empty outcomesLatin).2.1 (by decide)

theorem intervalClosed_eq_pyRange (a b : Int) : intervalClosed a b = pyRange a (b + 1) := rfl

theorem codeBands_eq (px : Int → Int → RGB) (h w xm xM ym yM bp : Int)
    (h0 : 0 ≤ ym) (h1 : yM ≤ h - 1) (h2 : 0 ≤ xm) (h3 : xM ≤ w - 1) :
    codeBands px h w xm xM ym yM bp = amendedBands px h w xm xM ym yM bp := by
  have g1 : yM < h := by omega
  have g2 : xM < w := by omega
  have e1 : min h (ym + 1) = min (h - 1) ym + 1 := by omega
  have e2 : min h (yM + bp + 1) = min (h - 1) (yM + bp) + 1 := by omega
  have e3 : min w (xm + 1) = min (w - 1) xm + 1 := by omega
  have e4 : min w (xM + bp + 1) = min (w - 1) (xM + bp) + 1 := by omega
  simp only [codeBands, amendedBands, intervalClosed_eq_pyRange, if_pos h0, if_pos g1,
    if_pos h2, if_pos g2, e1, e2, e3, e4]

theorem bandPixels_eq (img : Img) (bbox : List (Int × Int)) (bp : Int) :
    bandPixels img bbox bp = amendedBandPixels img bbox bp := by
  unfold bandPixels amendedBandPixels expandedBounds
  exact codeBands_eq _ _ _ _ _ _ _ _ (le_max_left _ _) (min_le_left _ _)
    (le_max_left _ _) (min_le_left _ _)

/-- Counterexample to C6: on a concrete image whose every pixel at Chebyshev
distance at most `borderWidth` from the enclosing rectangle is grey,
`_sample_background_color` returns black, while the median over the bands
the claim describes (just outside the enclosing rectangle, `borderWidth`
thick) is grey: the code's bands sit around the expanded rectangle instead. -/
theorem background_bands_counterexample :
    sample_background_color imgC6 bboxC6 4 = (0, 0, 0) ∧
    spec_sample_background_color imgC6 bboxC6 4 = (100, 100, 100) ∧
    ((0, 0, 0) : RGB) ≠ (100, 100, 100) := by
  refine ⟨by decide, by decide, by decide⟩

theorem fitSearch_spec (measure : Int → String → Int × Int) (wrap : String → Int → String)
    (text : String) (bx by0 bw bh minS : Int) :
    ∀ (fuel : Nat) (fs : Int),
      (fitSearch measure wrap text bx by0 bw bh minS fs fuel = none ∧
        ∀ g, minS ≤ g → g ≤ fs → fs - g < (fuel : Int) →
          ¬ fitPred measure wrap text bw bh g) ∨
      (∃ g, minS ≤ g ∧ g ≤ fs ∧ fs - g < (fuel : Int) ∧
        fitPred measure wrap text bw bh g ∧
        (∀ g', g < g' → g' ≤ fs → ¬ fitPred measure wrap text bw bh g') ∧
        fitSearch measure wrap text bx by0 bw bh minS fs fuel =
          some (drawAt measure wrap text bx by0 bw bh g)) := by
  intro fuel
  induction fuel with
  | zero =>
    intro fs
    left
    refine ⟨rfl, ?_⟩
    intro g h1 h2 h3 _
    omega
  | succ fuel ih =>
    intro fs
    by_cases hlt : fs < minS
    · left
      refine ⟨by simp [fitSearch, hlt], ?_⟩
      intro g h1 h2 h3 _
      omega
    · by_cases hfit : fitPred measure wrap text bw bh fs
      · right
        refine ⟨fs, by omega, le_refl fs, by omega, hfit, ?_, by simp [fitSearch, hlt, hfit]⟩
        intro g' h1 h2 _
        omega
      · have hstep : fitSearch measure wrap text bx by0 bw bh minS fs (fuel + 1) =
            fitSearch measure wrap text bx by0 bw bh minS (fs - 1) fuel := by
          simp [fitSearch, hlt, hfit]
        rcases ih (fs - 1) with ⟨hn, hnone⟩ | ⟨g, h1, h2, h3, h4, h5, h6⟩
        · left
          refine ⟨by rw [hstep]; exact hn, ?_⟩
          intro g hg1 hg2 hg3
          by_cases hgf : g = fs
          · subst hgf
            exact hfit
          · exact hnone g hg1 (by omega) (by omega)
        · right
          refine ⟨g, h1, by omega, by omega, h4, ?_, by rw [hstep]; exact h6⟩
          intro g' hg1 hg2
          by_cases hgf : g' = fs
          · subst hgf
            exact hfit
          · exact h5 g' hg1 (by omega)

unseal Rat.add Rat.mul Rat.inv Rat.sub in
/-- Counterexample to C7: for a bounding box of height 14, the source
starts the search at `max(8, int(14 * 0.85)) = 11` (truncation), not at
`max(8, round(14 * 0.85)) = 12` as the claim's `round` formula states: with
a measurement under which every size fits, the drawn size is the starting
size, and it is 11. -/
theorem font_search_round_counterexample :
    fit_text_in_bbox measureTiny wrapId "hi" bboxC7 = some ⟨9, 6, 11, "hi"⟩ ∧
    boxH bboxC7 = 14 ∧
    fontStart 14 = 11 ∧
    max (8 : Int) (round ((14 : Rat) * 85 / 100)) = 12 ∧
    (11 : Int) ≠ 12 := by
  refine ⟨by decide, by decide, by decide, by decide, by decide⟩

/-- Amended C7: the font-size search starts at `max(8, trunc(boxH * 0.85))`
and floors at `max(6, trunc(boxH * 0.2))` (Python `int()` truncation, not
rounding), stepping down by 1: a degenerate box renders nothing; the drawn
size is the largest size in the range whose wrapped, measured block fits
within the padded box; and if no size in the range fits, the text is still
drawn at the floor size, centered, without raising. -/
theorem font_search_amended (measure : Int → String → Int × Int) (wrap : String → Int → String)
    (text : String) (bbox : List (Int × Int)) :
    (boxW bbox ≤ 0 ∨ boxH bbox ≤ 0 → fit_text_in_bbox measure wrap text bbox = none) ∧
    (0 < boxW bbox → 0 < boxH bbox →
      (∀ g, fontFloor (boxH bbox) ≤ g → g ≤ fontStart (boxH bbox) →
        ¬ fitPred measure wrap text (boxW bbox) (boxH bbox) g) →
      fit_text_in_bbox measure wrap text bbox =
        some (drawAt measure wrap text (boxX bbox) (boxY bbox) (boxW bbox) (boxH bbox)
          (fontFloor (boxH bbox)))) ∧
    (0 < boxW bbox → 0 < boxH bbox →
      ∀ g, fontFloor (boxH bbox) ≤ g → g ≤ fontStart (boxH bbox) →
        fitPred measure wrap text (boxW bbox) (boxH bbox) g →
        (∀ g', g < g' → g' ≤ fontStart (boxH bbox) →
          ¬ fitPred measure wrap text (boxW bbox) (boxH bbox) g') →
        fit_text_in_bbox measure wrap text bbox =
          some (drawAt measure wrap text (boxX bbox) (boxY bbox) (boxW bbox) (boxH bbox) g)) := by
  refine ⟨?_, ?_, ?_⟩
  · intro hdeg
    simp [fit_text_in_bbox, hdeg]
  · intro hw hh hnone
    have hcond : ¬ (boxW bbox ≤ 0 ∨ boxH bbox ≤ 0) := by omega
    rcases fitSearch_spec measure wrap text (boxX bbox) (boxY bbox) (boxW bbox) (boxH bbox)
        (fontFloor (boxH bbox)) ((fontStart (boxH bbox) - fontFloor (boxH bbox) + 1).toNat)
        (fontStart (boxH bbox)) with ⟨hn, _⟩ | ⟨g, h1, h2, h3, h4, h5, h6⟩
    · simp [fit_text_in_bbox, hcond, hn]
    · exact absurd h4 (hnone g h1 h2)
  · intro hw hh g hg1 hg2 hfit hmax
    have hcond : ¬ (boxW bbox ≤ 0 ∨ boxH bbox ≤ 0) := by omega
    rcases fitSearch_spec measure wrap text (boxX bbox) (boxY bbox) (boxW bbox) (boxH bbox)
        (fontFloor (boxH bbox)) ((fontStart (boxH bbox) - fontFloor (boxH bbox) + 1).toNat)
        (fontStart (boxH bbox)) with ⟨hn, hnone⟩ | ⟨g0, h1, h2, h3, h4, h5, h6⟩
    · exact absurd hfit (hnone g hg1 hg2 (by omega))
    · have hgg : g = g0 := by
        by_contra hne
        rcases lt_or_gt_of_ne hne with hlt | hgt
        · exact absurd h4 (hmax g0 hlt h2)
        · exact absurd hfit (h5 g hgt hg2)
      subst hgg
      simp [fit_text_in_bbox, hcond, h6]

unseal Rat.add Rat.mul Rat.inv Rat.sub in
/-- Witness for the amended C7: with a 20 by 14 box and a measurement under
which everything fits, the search accepts the starting size 11 and draws
there. -/
theorem font_search_amended_witness :
    fit_text_in_bbox measureTiny wrapId "hi" bboxC7 =
      some (drawAt measureTiny wrapId "hi" (boxX bboxC7) (boxY bboxC7) (boxW bboxC7)
        (boxH bboxC7) 11) := by
  refine (font_search_amended measureTiny wrapId "hi" bboxC7).2.2 (by decide) (by decide)
    11 (by decide) (by decide) (by decide) ?_
  intro g' h1 h2
  have hs : fontStart (boxH bboxC7) = 11 := by decide
  intro _
  omega

/-- Amended C6: the Background Estimator returns the per-channel median
(truncating the even-count midpoint average) of the pixels sampled with
multiplicity from four border bands around the clamped expanded rectangle
(the axis-aligned rectangle enclosing the polygon, grown by `borderWidth`
and clamped to the image): a top band of rows from `borderWidth` above the
expanded top row through that top row, a bottom band from the expanded
bottom row through `borderWidth` below it, and left/right bands likewise
around the expanded left/right columns spanning the expanded vertical
range — each band `borderWidth + 1` pixels thick before clamping; if the
sample set is empty it returns white (255, 255, 255). -/
theorem background_median_amended (img : Img) (bbox : List (Int × Int)) (bp : Int) :
    sample_background_color img bbox bp = amended_sample_background_color img bbox bp := by
  unfold sample_background_color amended_sample_background_color
  rw [bandPixels_eq]

theorem renderStep_px_outside (measure : Int → String → Int × Int)
    (wrap : String → Int → String) (glyph : Int → String → Int → Int → Bool)
    (img : Img) (rt : TextRegion × String) (x y : Int)
    (hpoly : inPoly rt.1.bbox (x, y) = false)
    (hrect : ∀ cmd, fit_text_in_bbox measure wrap rt.2 rt.1.bbox = some cmd →
      ¬ inTextRect measure cmd x y) :
    (renderStep measure wrap glyph img rt).px y x = img.px y x := by
  unfold renderStep
  split
  · simp [fillPoly, hpoly]
  · rename_i cmd hfit
    have h1 : ¬ (cmd.x ≤ x ∧ x < cmd.x + (measure cmd.size cmd.wrapped).1 ∧ cmd.y ≤ y ∧
        y < cmd.y + (measure cmd.size cmd.wrapped).2 ∧
        glyph cmd.size cmd.wrapped (x - cmd.x) (y - cmd.y) = true) := by
      intro hc
      exact hrect cmd hfit ⟨hc.1, hc.2.1, hc.2.2.1, hc.2.2.2.1⟩
    simp [drawText, fillPoly, hpoly, h1]

theorem renderStep_dims (measure : Int → String → Int × Int)
    (wrap : String → Int → String) (glyph : Int → String → Int → Int → Bool)
    (img : Img) (rt : TextRegion × String) :
    (renderStep measure wrap glyph img rt).h = img.h ∧
    (renderStep measure wrap glyph img rt).w = img.w := by
  unfold renderStep
  split <;> simp [fillPoly, drawText]

theorem renderFold_px_outside (measure : Int → String → Int × Int)
    (wrap : String → Int → String) (glyph : Int → String → Int → Int → Bool)
    (pairs : List (TextRegion × String)) (x y : Int) :
    (∀ p ∈ pairs, inPoly p.1.bbox (x, y) = false ∧
      ∀ cmd, fit_text_in_bbox measure wrap p.2 p.1.bbox = some cmd →
        ¬ inTextRect measure cmd x y) →
    ∀ img : Img, (pairs.foldl (renderStep measure wrap glyph) img).px y x = img.px y x := by
  induction pairs with
  | nil =>
    intro _ img
    rfl
  | cons p ps ih =>
    intro hout img
    simp only [List.foldl_cons]
    rw [ih (fun q hq => hout q (List.mem_cons_of_mem p hq))
      (renderStep measure wrap glyph img p)]
    exact renderStep_px_outside measure wrap glyph img p x y
      (hout p (List.mem_cons_self p ps)).1 (hout p (List.mem_cons_self p ps)).2

theorem renderFold_dims (measure : Int → String → Int × Int)
    (wrap : String → Int → String) (glyph : Int → String → Int → Int → Bool)
    (pairs : List (TextRegion × String)) :
    ∀ img : Img, (pairs.foldl (renderStep measure wrap glyph) img).h = img.h ∧
      (pairs.foldl (renderStep measure wrap glyph) img).w = img.w := by
  induction pairs with
  | nil =>
    intro img
    exact ⟨rfl, rfl⟩
  | cons p ps ih =>
    intro img
    simp only [List.foldl_cons]
    obtain ⟨ih1, ih2⟩ := ih (renderStep measure wrap glyph img p)
    obtain ⟨hs1, hs2⟩ := renderStep_dims measure wrap glyph img p
    exact ⟨ih1.trans hs1, ih2.trans hs2⟩

unseal Rat.add Rat.mul Rat.inv Rat.sub in
/-- Counterexample to C8: one all-black 12 by 12 image with a single square
region in its corner; the translated text does not fit, so the fallback
draws at floor size, centered, and its measured 100 by 100 block overflows:
pixel (10, 10), outside the region's polygon, changes from black to the
white ink color, so modification is not confined to the polygons. -/
theorem render_frame_counterexample :
    regionsC8 = [⟨[(0, 0), (4, 0), (4, 4), (0, 4)], "x", 1⟩] ∧
    regionsC8.length = 1 ∧ (["HI"] : List String).length = 1 ∧
    inPoly [(0, 0), (4, 0), (4, 4), (0, 4)] (10, 10) = false ∧
    imgC8.px 10 10 = (0, 0, 0) ∧
    (render_translated_image measureHuge wrapId glyphFull
      imgC8 regionsC8 ["HI"]).px 10 10 = (255, 255, 255) ∧
    ((255, 255, 255) : RGB) ≠ (0, 0, 0) := by
  refine ⟨rfl, rfl, rfl, by decide, rfl, by decide, by decide⟩

/-- Amended C8: `render_translated_image` keeps the canvas dimensions of
its input, and every pixel outside both the union of the rasterized
bounding polygons and the union of the rendered text-block rectangles (the
measured block of each region's issued draw command, which can overflow its
polygon) is unchanged. -/
theorem render_frame_amended (measure : Int → String → Int × Int)
    (wrap : String → Int → String) (glyph : Int → String → Int → Int → Bool)
    (img : Img) (regions : List TextRegion) (texts : List String) (x y : Int)
    (hout : ∀ p ∈ regions.zip texts, inPoly p.1.bbox (x, y) = false ∧
      ∀ cmd, fit_text_in_bbox measure wrap p.2 p.1.bbox = some cmd →
        ¬ inTextRect measure cmd x y) :
    (render_translated_image measure wrap glyph img regions texts).px y x = img.px y x ∧
    (render_translated_image measure wrap glyph img regions texts).h = img.h ∧
    (render_translated_image measure wrap glyph img regions texts).w = img.w := by
  unfold render_translated_image
  refine ⟨renderFold_px_outside measure wrap glyph (regions.zip texts) x y hout img, ?_, ?_⟩
  · exact (renderFold_dims measure wrap glyph (regions.zip texts) img).1
  · exact (renderFold_dims measure wrap glyph (regions.zip texts) img).2

unseal Rat.add Rat.mul Rat.inv Rat.sub in
/-- Witness for the amended C8: with a tiny 1 by 1 measured block, the
region's draw command covers only the pixel square starting at (1, 1), and
pixel (10, 10) — outside the polygon and the block — keeps its input color,
while the dimensions are preserved. -/
theorem render_frame_amended_witness :
    (render_translated_image measureTiny wrapId glyphFull imgC8 regionsC8 ["HI"]).px 10 10 =
      imgC8.px 10 10 ∧
    (render_translated_image measureTiny wrapId glyphFull imgC8 regionsC8 ["HI"]).h = imgC8.h := by
  have hyp : ∀ p ∈ regionsC8.zip ["HI"], inPoly p.1.bbox ((10 : Int), (10 : Int)) = false ∧
      ∀ cmd, fit_text_in_bbox measureTiny wrapId p.2 p.1.bbox = some cmd →
        ¬ inTextRect measureTiny cmd 10 10 := by
    intro p hp
    have hp2 : p = (⟨[(0, 0), (4, 0), (4, 4), (0, 4)], "x", 1⟩, "HI") := by
      simpa [regionsC8] using hp
    subst hp2
    refine ⟨by decide, ?_⟩
    intro cmd hcmd
    have hfit : fit_text_in_bbox measureTiny wrapId "HI" [(0, 0), (4, 0), (4, 4), (0, 4)] =
        some ⟨1, 1, 6, "HI"⟩ := by decide
    rw [hfit] at hcmd
    injection hcmd with hc
    rw [← hc]
    decide
  have h := render_frame_amended measureTiny wrapId glyphFull imgC8 regionsC8 ["HI"] 10 10 hyp
  exact ⟨h.1, h.2.1⟩

end OCRBot
